import Mathlib

/-!
Verification of the reinforcement-learning teaching notebooks
(tabular SARSA / Q-learning, DQN, REINFORCE, one-step Actor-Critic).

The definitions below are a shallow embedding of the Python source:
numpy float arrays are modelled by `List ℚ`, discretized states by
`List ℤ`, the Q-table by a total function `List ℤ → List ℚ`, and the
random draws consumed by `np.random` are passed explicitly as arguments
(`r : ℚ` for a `np.random.random()` draw in `[0,1)`, `k : ℕ` for a
`np.random.randint` draw, with its range bound appearing as a hypothesis
where a theorem needs it).
-/

namespace RLNotebooks

/-- `np.max` on a (nonempty) value vector: fold of `max` over the list,
seeded with the head.  On the empty list (where numpy raises) it returns
the default `0`; all theorems that use it carry a nonemptiness hypothesis. -/
def np_max (q : List ℚ) : ℚ := q.foldl max (q.headD 0)

/-- The list comprehension `[i for i, q in enumerate(q_values) if q == q_max]`
from `epsilon_greedy_selection`: all indices of `q_values` attaining the
maximum, in increasing order. -/
def q_max_actions (q : List ℚ) : List ℕ :=
  (List.range q.length).filter (fun i => q.getD i 0 = np_max q)

/-- `SarsaAgent.epsilon_greedy_selection` / `QLearningAgent.epsilon_greedy_selection`:
with explicit random draws `r` (the `np.random.random()` float) and `k`
(the `np.random.randint` draw of whichever branch runs).  If `r < ε` the
exploration branch returns the uniform draw `k` over `[0, len q)`;
otherwise the greedy branch returns the `k`-th element of the list of all
maximizing indices (`k` uniform over `[0, len (q_max_actions q))`). -/
def epsilon_greedy_selection (q : List ℚ) (ε r : ℚ) (k : ℕ) : ℕ :=
  if r < ε then k
  else (q_max_actions q).getD k 0

/-- `np.argmax`: the first index of `q` attaining the maximum value
(head of the increasing list of maximizing indices). -/
def np_argmax (q : List ℚ) : ℕ := (q_max_actions q).headD 0

/-- `DQNAgent.select_action`: exploration returns the uniform draw `k`
over `[0, action_size)`; the greedy branch is `np.argmax` of the online
network's predicted values (it consumes no tie-breaking randomness). -/
def dqn_select_action (q : List ℚ) (ε r : ℚ) (k : ℕ) : ℕ :=
  if r < ε then k
  else np_argmax q

/-- numpy `astype(int)`: truncation of a rational toward zero. -/
def truncInt (x : ℚ) : ℤ := if x < 0 then -⌊-x⌋ else ⌊x⌋

/-- One component of `get_discrete_state`: with per-dimension bounds
`low`, `high` and grid count `n`, the grid size is `(high - low) / n`
(from `__init__`) and the returned index is
`astype(int) ((s - low) / grid_size)`. -/
def discretize1 (low high : ℚ) (n : ℕ) (s : ℚ) : ℤ :=
  truncInt ((s - low) / ((high - low) / (n : ℚ)))

/-- `SarsaAgent.get_discrete_state` / `QLearningAgent.get_discrete_state`:
elementwise `(state - low) / grid_size`, truncated to integers. -/
def get_discrete_state (low high : List ℚ) (ng : List ℕ) (s : List ℚ) : List ℤ :=
  (s.zip (low.zip (high.zip ng))).map (fun p => discretize1 p.2.1 p.2.2.1 p.2.2.2 p.1)

/-! ### Basic lemmas about `np_max` and `q_max_actions` -/

theorem le_foldl_max (l : List ℚ) (init : ℚ) : init ≤ l.foldl max init := by
  induction l generalizing init with
  | nil => exact le_refl _
  | cons x xs ih => exact le_trans (le_max_left init x) (ih (max init x))

theorem mem_le_foldl_max (l : List ℚ) (init : ℚ) :
    ∀ x ∈ l, x ≤ l.foldl max init := by
  induction l generalizing init with
  | nil => intro x hx; cases hx
  | cons y ys ih =>
    intro x hx
    rcases List.mem_cons.mp hx with h | h
    · subst h
      exact le_trans (le_max_right init x) (le_foldl_max ys (max init x))
    · exact ih (max init y) x h

theorem foldl_max_mem (l : List ℚ) (init : ℚ) :
    l.foldl max init = init ∨ l.foldl max init ∈ l := by
  induction l generalizing init with
  | nil => exact Or.inl rfl
  | cons y ys ih =>
    rcases ih (max init y) with h | h
    · rcases max_choice init y with hm | hm
      · left
        rw [List.foldl_cons, h, hm]
      · right
        rw [List.foldl_cons, h, hm]
        exact List.mem_cons_self _ _
    · exact Or.inr (List.mem_cons_of_mem _ h)

/-- Every element of the vector is bounded by `np_max`. -/
theorem le_np_max (q : List ℚ) : ∀ x ∈ q, x ≤ np_max q := by
  intro x hx
  exact mem_le_foldl_max q (q.headD 0) x hx

/-- On a nonempty vector `np_max` is attained. -/
theorem np_max_mem (q : List ℚ) (hq : q ≠ []) : np_max q ∈ q := by
  rcases q with _ | ⟨h, t⟩
  · exact absurd rfl hq
  · rcases foldl_max_mem (h :: t) ((h :: t).headD 0) with he | he
    · rw [np_max, he]; exact List.mem_cons_self _ _
    · exact he

theorem getD_le_np_max (q : List ℚ) (i : ℕ) (hi : i < q.length) :
    q.getD i 0 ≤ np_max q := by
  apply le_np_max
  rw [List.getD_eq_getElem _ _ hi]
  exact List.getElem_mem _

theorem mem_q_max_actions_iff (q : List ℚ) (i : ℕ) :
    i ∈ q_max_actions q ↔ i < q.length ∧ q.getD i 0 = np_max q := by
  simp [q_max_actions, List.mem_filter, List.mem_range]

theorem q_max_actions_nodup (q : List ℚ) : (q_max_actions q).Nodup :=
  (List.nodup_range _).filter _

theorem q_max_actions_ne_nil (q : List ℚ) (hq : q ≠ []) :
    q_max_actions q ≠ [] := by
  have hm : np_max q ∈ q := np_max_mem q hq
  rcases List.mem_iff_getElem.mp hm with ⟨i, hi, hgi⟩
  have : i ∈ q_max_actions q := by
    rw [mem_q_max_actions_iff]
    exact ⟨hi, by rw [List.getD_eq_getElem _ _ hi]; exact hgi⟩
  intro hnil
  rw [hnil] at this
  cases this

theorem q_max_actions_pairwise (q : List ℚ) :
    (q_max_actions q).Pairwise (· < ·) :=
  (List.pairwise_lt_range _).filter _

/-- `np_argmax` is a maximizing index, and it is the least one. -/
theorem np_argmax_spec (q : List ℚ) (hq : q ≠ []) :
    np_argmax q ∈ q_max_actions q ∧ ∀ i ∈ q_max_actions q, np_argmax q ≤ i := by
  rcases hh : q_max_actions q with _ | ⟨j, rest⟩
  · exact absurd hh (q_max_actions_ne_nil q hq)
  · have hhead : np_argmax q = j := by simp [np_argmax, hh]
    constructor
    · rw [hhead]; exact List.mem_cons_self _ _
    · intro i hi
      rw [hhead]
      rcases List.mem_cons.mp hi with h | h
      · exact h ▸ le_refl j
      · have hp := q_max_actions_pairwise q
        rw [hh] at hp
        exact le_of_lt ((List.pairwise_cons.mp hp).1 i h)

/-! ### C1: discretizer bounds -/

theorem truncInt_of_nonneg (x : ℚ) (hx : 0 ≤ x) : truncInt x = ⌊x⌋ := by
  rw [truncInt, if_neg (not_lt.mpr hx)]

/-- Core bound for one grid dimension: an observation in `[low, high)`
lands in cell `[0, n)`. -/
theorem discretize1_in_bounds (low high : ℚ) (n : ℕ) (s : ℚ)
    (hn : 0 < n) (hlh : low < high) (hlow : low ≤ s) (hhigh : s < high) :
    0 ≤ discretize1 low high n s ∧ discretize1 low high n s < n := by
  have hnq : (0:ℚ) < (n:ℚ) := by exact_mod_cast hn
  have hg : (0:ℚ) < (high - low) / (n:ℚ) := div_pos (sub_pos.mpr hlh) hnq
  set x : ℚ := (s - low) / ((high - low) / (n:ℚ)) with hxdef
  have hx0 : 0 ≤ x := div_nonneg (sub_nonneg.mpr hlow) (le_of_lt hg)
  have hxlt : x < (n:ℚ) := by
    rw [hxdef, div_lt_iff₀ hg]
    have hcancel : (n:ℚ) * ((high - low) / (n:ℚ)) = high - low := by
      field_simp
    rw [hcancel]
    linarith
  have ht : discretize1 low high n s = ⌊x⌋ := truncInt_of_nonneg x hx0
  constructor
  · rw [ht]; exact Int.floor_nonneg.mpr hx0
  · rw [ht]
    exact_mod_cast Int.floor_lt.mpr (by exact_mod_cast hxlt)

/-- The vector discretizer acts componentwise. -/
theorem get_discrete_state_component (low high : List ℚ) (ng : List ℕ) (s : List ℚ)
    (h1 : low.length = s.length) (h2 : high.length = s.length)
    (h3 : ng.length = s.length) (i : ℕ) (hi : i < s.length) :
    (get_discrete_state low high ng s).getD i 0 =
      discretize1 (low.getD i 0) (high.getD i 0) (ng.getD i 0) (s.getD i 0) := by
  have hz3 : i < (high.zip ng).length := by
    rw [List.length_zip, h2, h3]; exact lt_min hi hi
  have hz2 : i < (low.zip (high.zip ng)).length := by
    rw [List.length_zip, h1]; exact lt_min hi hz3
  have hz1 : i < (s.zip (low.zip (high.zip ng))).length := by
    rw [List.length_zip]; exact lt_min hi hz2
  have hmaplen : i < ((s.zip (low.zip (high.zip ng))).map
      (fun p => discretize1 p.2.1 p.2.2.1 p.2.2.2 p.1)).length := by
    rwa [List.length_map]
  rw [get_discrete_state, List.getD_eq_getElem _ _ hmaplen, List.getElem_map,
    List.getElem_zip, List.getElem_zip, List.getElem_zip,
    List.getD_eq_getElem _ _ hi, List.getD_eq_getElem _ _ (h1 ▸ hi),
    List.getD_eq_getElem _ _ (h2 ▸ hi), List.getD_eq_getElem _ _ (h3 ▸ hi)]

/-- C1 (counterexample): the claim includes boundary observations equal to
`high`, but there the discretizer returns the grid count itself.  With
`low = [0]`, `high = [1]`, one grid cell, the observation `[1]` lies within
`[low, high]` yet is mapped to index `1`, which is not `< 1`, so the
Q-table lookup would be out of bounds. -/
theorem C1_counterexample_high_boundary :
    ((0:ℚ) ≤ 1 ∧ (1:ℚ) ≤ 1) ∧
    get_discrete_state [0] [1] [1] [1] = [1] ∧
    ¬ ((get_discrete_state [0] [1] [1] [1]).getD 0 0 < 1) := by
  have hd : discretize1 0 1 1 1 = 1 := by
    rw [discretize1, truncInt]
    norm_num
  have hv : get_discrete_state [0] [1] [1] [1] = [1] := by
    show [discretize1 0 1 1 1] = [1]
    rw [hd]
  refine ⟨⟨by norm_num, le_refl _⟩, hv, ?_⟩
  rw [hv]
  decide

/-- C1 (amended): for every observation strictly inside the upper bound —
`low_i ≤ s_i < high_i` in every component — with positive grid counts and
`low_i < high_i`, each component of `get_discrete_state` lies in
`[0, num_grid_cells_i)`, so the Q-table lookup is in bounds; the boundary
case `s_i = high_i` is excluded because the code maps it to `num_grid_cells_i`. -/
theorem C1_discretizer_in_bounds (low high : List ℚ) (ng : List ℕ) (s : List ℚ)
    (h1 : low.length = s.length) (h2 : high.length = s.length)
    (h3 : ng.length = s.length) (i : ℕ) (hi : i < s.length)
    (hn : 0 < ng.getD i 0) (hlh : low.getD i 0 < high.getD i 0)
    (hlow : low.getD i 0 ≤ s.getD i 0) (hhigh : s.getD i 0 < high.getD i 0) :
    0 ≤ (get_discrete_state low high ng s).getD i 0 ∧
    (get_discrete_state low high ng s).getD i 0 < (ng.getD i 0 : ℤ) := by
  rw [get_discrete_state_component low high ng s h1 h2 h3 i hi]
  exact discretize1_in_bounds _ _ _ _ hn hlh hlow hhigh

/-- C1 witness: a concrete in-bounds instantiation of the amended theorem
(`low = [0]`, `high = [1]`, 2 cells, observation `[1/2]` lands in cell 1). -/
theorem C1_discretizer_in_bounds_witness :
    (([0]:List ℚ).length = ([1/2]:List ℚ).length ∧ 0 < 2 ∧ (0:ℚ) < 1 ∧
      (0:ℚ) ≤ 1/2 ∧ (1/2:ℚ) < 1) ∧
    (0 ≤ (get_discrete_state [0] [1] [2] [1/2]).getD 0 0 ∧
      (get_discrete_state [0] [1] [2] [1/2]).getD 0 0 < (2:ℤ)) := by
  refine ⟨⟨rfl, by norm_num, by norm_num, by norm_num, by norm_num⟩, ?_⟩
  exact C1_discretizer_in_bounds [0] [1] [2] [1/2] rfl rfl rfl 0 (by decide)
    (by decide) (by norm_num) (by norm_num) (by norm_num)

/-! ### C2: epsilon-greedy selection -/

/-- C2 (counterexample): the claim asserts uniform tie-breaking among all
maximizing indices for the DQN selector as well, but `DQNAgent.select_action`
uses `np.argmax`, which deterministically returns the first maximizing index.
On `q = [1, 1]` both indices maximize, yet the greedy branch (here `ε = 0`,
`r = 0`) returns `0` whatever the tie-break draw `k` is — index `1` is
never selected, so the choice is not uniform over all maximizing indices. -/
theorem C2_counterexample_dqn_first_max :
    q_max_actions [(1:ℚ), 1] = [0, 1] ∧
    np_argmax [(1:ℚ), 1] = 0 ∧
    dqn_select_action [(1:ℚ), 1] 0 0 0 = 0 ∧
    dqn_select_action [(1:ℚ), 1] 0 0 1 = 0 := by
  refine ⟨?_, ?_, ?_, ?_⟩ <;> decide

/-- C2 (amended): for any value vector and any ε, the tabular selector
returns the raw uniform draw `k` over all actions when the exploration
branch fires (`r < ε`, an event of probability ε for `r` uniform on
`[0,1)`), and otherwise the `k`-th entry of `q_max_actions q` — the
duplicate-free, complete, increasing list of **all** maximizing indices —
so a uniform `k` gives a uniform choice among every maximizing index.
The DQN selector explores identically, but its greedy branch is
deterministically `np.argmax`: the **first** maximizing index, with ties
never broken randomly. -/
theorem C2_selectors (q : List ℚ) (ε r : ℚ) (k : ℕ) :
    (r < ε → epsilon_greedy_selection q ε r k = k) ∧
    (¬ r < ε → k < (q_max_actions q).length →
        epsilon_greedy_selection q ε r k = (q_max_actions q).getD k 0 ∧
        epsilon_greedy_selection q ε r k ∈ q_max_actions q) ∧
    ((q_max_actions q).Nodup ∧
      ∀ i, i ∈ q_max_actions q ↔ i < q.length ∧ q.getD i 0 = np_max q) ∧
    (r < ε → dqn_select_action q ε r k = k) ∧
    (¬ r < ε → q ≠ [] →
        dqn_select_action q ε r k = np_argmax q ∧
        np_argmax q ∈ q_max_actions q ∧ ∀ i ∈ q_max_actions q, np_argmax q ≤ i) := by
  refine ⟨?_, ?_, ⟨q_max_actions_nodup q, fun i => mem_q_max_actions_iff q i⟩, ?_, ?_⟩
  · intro h
    rw [epsilon_greedy_selection, if_pos h]
  · intro h hk
    have he : epsilon_greedy_selection q ε r k = (q_max_actions q).getD k 0 := by
      rw [epsilon_greedy_selection, if_neg h]
    refine ⟨he, ?_⟩
    rw [he, List.getD_eq_getElem _ _ hk]
    exact List.getElem_mem _
  · intro h
    rw [dqn_select_action, if_pos h]
  · intro h hq
    have he : dqn_select_action q ε r k = np_argmax q := by
      rw [dqn_select_action, if_neg h]
    exact ⟨he, np_argmax_spec q hq⟩

/-- C2 witness: on `q = [0, 1]` with `ε = 0`, `r = 0`, draw `k = 0`, the
greedy branch of the tabular selector returns the drawn maximizing index. -/
theorem C2_selectors_witness :
    (¬ (0:ℚ) < (0:ℚ)) ∧ 0 < (q_max_actions [(0:ℚ), 1]).length ∧
    epsilon_greedy_selection [(0:ℚ), 1] 0 0 0 = (q_max_actions [(0:ℚ), 1]).getD 0 0 ∧
    epsilon_greedy_selection [(0:ℚ), 1] 0 0 0 ∈ q_max_actions [(0:ℚ), 1] := by
  refine ⟨by norm_num, by decide, ?_, ?_⟩
  · exact ((C2_selectors [(0:ℚ), 1] 0 0 0).2.1 (by norm_num) (by decide)).1
  · exact ((C2_selectors [(0:ℚ), 1] 0 0 0).2.1 (by norm_num) (by decide)).2

/-! ### Tabular SARSA and Q-learning (C3, C4) -/

/-- A Q-table: the dense numpy array `q_table`, indexed by the discretized
state tuple and then the action.  `q s` is the row `q_table[s]` of
per-action values. -/
def QTable : Type := List ℤ → List ℚ

/-- The SARSA target (`q_new` in `SarsaAgent.execute`):
`reward` if `done`, else `reward + γ · q_table[new_state][new_action]`. -/
def sarsa_target (γ reward : ℚ) (row : List ℚ) (new_action : ℕ) (done : Bool) : ℚ :=
  if done then reward else reward + γ * row.getD new_action 0

/-- The Q-learning target (`q_new` in `QLearningAgent.execute`):
`reward` if `done`, else `reward + γ · np.max(q_table[new_state])`. -/
def qlearning_target (γ reward : ℚ) (row : List ℚ) (done : Bool) : ℚ :=
  if done then reward else reward + γ * np_max row

/-- `self.q_table[idx] = v` for `idx = state + (action,)`: pointwise
functional update of the table at one (state, action) cell. -/
def table_update (q : QTable) (s : List ℤ) (a : ℕ) (v : ℚ) : QTable :=
  fun t => if t = s then (q s).set a v else q t

/-- Result of one iteration of the SARSA inner loop: the mutated table and
the `(state, action)` pair the loop continues with, plus the `done` flag. -/
structure SarsaStepResult where
  q_table : QTable
  state : List ℤ
  action : ℕ
  finished : Bool

/-- One iteration of the `while True` loop of `SarsaAgent.execute`, given
the environment's response `(new_state, reward, done)` (with `new_state`
already discretized) and the random draws `r`, `k` consumed by the
epsilon-greedy selection of `new_action`. -/
def sarsaStep (α γ ε : ℚ) (q : QTable) (state : List ℤ) (action : ℕ)
    (new_state : List ℤ) (reward : ℚ) (done : Bool) (r : ℚ) (k : ℕ) : SarsaStepResult :=
  let new_action := epsilon_greedy_selection (q new_state) ε r k
  let q_new := sarsa_target γ reward (q new_state) new_action done
  let q_old := (q state).getD action 0
  let q2 := table_update q state action (q_old + α * (q_new - q_old))
  if done then ⟨q2, state, action, true⟩ else ⟨q2, new_state, new_action, false⟩

/-- The trace of `(state, action)` pairs actually executed by the SARSA
inner loop, driven by a script of environment responses and a stream of
random draws; the loop breaks when `done` is observed. -/
def sarsaRun (α γ ε : ℚ) (q : QTable) (state : List ℤ) (action : ℕ) :
    List (List ℤ × ℚ × Bool) → List (ℚ × ℕ) → List (List ℤ × ℕ)
  | (s2, rw, d) :: sc, (r, k) :: rs =>
      let res := sarsaStep α γ ε q state action s2 rw d r k
      (state, action) ::
        (if d then [] else sarsaRun α γ ε res.q_table res.state res.action sc rs)
  | _, _ => []

/-- One iteration of the `while True` loop of `QLearningAgent.execute`:
same update with the max-based target; only `state` advances. -/
def qlearningStep (α γ : ℚ) (q : QTable) (state : List ℤ) (action : ℕ)
    (new_state : List ℤ) (reward : ℚ) (done : Bool) : QTable × List ℤ :=
  let q_new := qlearning_target γ reward (q new_state) done
  let q_old := (q state).getD action 0
  let q2 := table_update q state action (q_old + α * (q_new - q_old))
  (q2, if done then state else new_state)

theorem getD_set_self (l : List ℚ) (a : ℕ) (v : ℚ) (h : a < l.length) :
    (l.set a v).getD a 0 = v := by
  rw [List.getD_eq_getElem _ _ (by simpa using h)]
  simp [List.getElem_set]

theorem table_update_read (q : QTable) (s : List ℤ) (a : ℕ) (v : ℚ)
    (ha : a < (q s).length) : (table_update q s a v s).getD a 0 = v := by
  rw [table_update, if_pos rfl]
  exact getD_set_self (q s) a v ha

/-- Heads of a SARSA trace: the first executed pair is the incoming
`(state, action)`. -/
theorem sarsaRun_head (α γ ε : ℚ) (q : QTable) (s : List ℤ) (a : ℕ)
    (e : List ℤ × ℚ × Bool) (sc : List (List ℤ × ℚ × Bool))
    (p : ℚ × ℕ) (rs : List (ℚ × ℕ)) :
    (sarsaRun α γ ε q s a (e :: sc) (p :: rs)).getD 0 ([], 0) = (s, a) := by
  rcases e with ⟨s2, rw, d⟩
  rcases p with ⟨r, k⟩
  rw [sarsaRun]
  rcases d with _ | _ <;> rfl

/-- C3: one SARSA time step chooses `next_action` epsilon-greedily on
`Q[next_state]` with the same ε used for behaviour, computes the target
`reward` when done and `reward + γ·Q[next_state][next_action]` otherwise,
rewrites the table cell as `Q[s][a] += α·(target − Q[s][a])`, and on a
continuing episode advances `(state, action)` to exactly
`(next_state, next_action)`, which is then the pair executed at the very
next step of the loop. -/
theorem C3_sarsa_step_update (α γ ε r : ℚ) (k : ℕ) (q : QTable) (s : List ℤ)
    (a : ℕ) (s2 : List ℤ) (rw : ℚ) (d : Bool) (ha : a < (q s).length) :
    (sarsaStep α γ ε q s a s2 rw d r k).action =
        (if d then a else epsilon_greedy_selection (q s2) ε r k) ∧
    sarsa_target γ rw (q s2) (epsilon_greedy_selection (q s2) ε r k) d =
        (if d then rw
         else rw + γ * (q s2).getD (epsilon_greedy_selection (q s2) ε r k) 0) ∧
    ((sarsaStep α γ ε q s a s2 rw d r k).q_table s).getD a 0 =
        (q s).getD a 0 +
          α * (sarsa_target γ rw (q s2) (epsilon_greedy_selection (q s2) ε r k) d
                - (q s).getD a 0) ∧
    (d = false →
      (sarsaStep α γ ε q s a s2 rw d r k).state = s2 ∧
      (sarsaStep α γ ε q s a s2 rw d r k).action =
        epsilon_greedy_selection (q s2) ε r k) ∧
    (d = false →
      ∀ (e : List ℤ × ℚ × Bool) (sc : List (List ℤ × ℚ × Bool))
        (p : ℚ × ℕ) (rs : List (ℚ × ℕ)),
        (sarsaRun α γ ε q s a ((s2, rw, d) :: e :: sc) ((r, k) :: p :: rs)).getD 1
            ([], 0) =
          (s2, epsilon_greedy_selection (q s2) ε r k)) := by
  refine ⟨?_, ?_, ?_, ?_, ?_⟩
  · rcases d with _ | _ <;> simp [sarsaStep]
  · rfl
  · rcases d with _ | _ <;>
      simpa [sarsaStep] using table_update_read q s a _ ha
  · intro hd
    subst hd
    exact ⟨rfl, rfl⟩
  · intro hd
    subst hd
    intro e sc p rs
    rw [sarsaRun]
    simpa [sarsaStep] using
      sarsaRun_head α γ ε _ s2 (epsilon_greedy_selection (q s2) ε r k) e sc p rs

/-- A tiny concrete Q-table (one discrete state, two actions) used to
instantiate theorems on concrete inputs. -/
def demo_table : QTable := fun _ => [0, 1]

/-- C3 witness: a concrete SARSA step on a one-state table with two
actions. -/
theorem C3_sarsa_step_update_witness :
    0 < (demo_table [(0:ℤ)]).length ∧
    ((sarsaStep 1 1 0 demo_table [(0:ℤ)] 0 [0] 2 false 0 0).q_table [(0:ℤ)]).getD 0 0 =
      (demo_table [(0:ℤ)]).getD 0 0 +
        1 * (sarsa_target 1 2 (demo_table [(0:ℤ)])
              (epsilon_greedy_selection (demo_table [(0:ℤ)]) 0 0 0) false
            - (demo_table [(0:ℤ)]).getD 0 0) := by
  refine ⟨by decide, ?_⟩
  exact (C3_sarsa_step_update 1 1 0 0 0 demo_table [(0:ℤ)] 0 [0] 2 false
    (by decide)).2.2.1

/-- The epsilon-greedy selection always lands inside the row, provided
the random draw of the branch that runs is in its numpy range. -/
theorem epsilon_greedy_lt_length (row : List ℚ) (ε r : ℚ) (k : ℕ)
    (hexp : r < ε → k < row.length)
    (hgre : ¬ r < ε → k < (q_max_actions row).length) :
    epsilon_greedy_selection row ε r k < row.length := by
  by_cases h : r < ε
  · rw [epsilon_greedy_selection, if_pos h]
    exact hexp h
  · rw [epsilon_greedy_selection, if_neg h]
    have hk := hgre h
    have hmem : (q_max_actions row).getD k 0 ∈ q_max_actions row := by
      rw [List.getD_eq_getElem _ _ hk]
      exact List.getElem_mem _
    exact ((mem_q_max_actions_iff row _).mp hmem).1

/-- C4: on a non-terminal transition the Q-learning target is
`reward + γ·max_a Q[next_state][a]`, and the SARSA target (built from the
epsilon-greedy `next_action`) agrees with it exactly when the chosen next
action is a maximizing one — in particular also when it differs from the
argmax index but carries an equal Q-value — and differs from it exactly
when the chosen action's value is below the maximum. -/
theorem C4_sarsa_vs_qlearning_target (γ ε r rw : ℚ) (k : ℕ) (row : List ℚ)
    (hγ : 0 < γ)
    (hexp : r < ε → k < row.length)
    (hgre : ¬ r < ε → k < (q_max_actions row).length) :
    qlearning_target γ rw row false = rw + γ * np_max row ∧
    (sarsa_target γ rw row (epsilon_greedy_selection row ε r k) false =
        qlearning_target γ rw row false ↔
      epsilon_greedy_selection row ε r k ∈ q_max_actions row) ∧
    (sarsa_target γ rw row (epsilon_greedy_selection row ε r k) false ≠
        qlearning_target γ rw row false ↔
      row.getD (epsilon_greedy_selection row ε r k) 0 < np_max row) := by
  have ha2 : epsilon_greedy_selection row ε r k < row.length :=
    epsilon_greedy_lt_length row ε r k hexp hgre
  have hqt : qlearning_target γ rw row false = rw + γ * np_max row := by
    rw [qlearning_target, if_neg (by simp)]
  have hst : sarsa_target γ rw row (epsilon_greedy_selection row ε r k) false =
      rw + γ * row.getD (epsilon_greedy_selection row ε r k) 0 := by
    rw [sarsa_target, if_neg (by simp)]
  have hiff : sarsa_target γ rw row (epsilon_greedy_selection row ε r k) false =
      qlearning_target γ rw row false ↔
      row.getD (epsilon_greedy_selection row ε r k) 0 = np_max row := by
    rw [hqt, hst, add_right_inj]
    constructor
    · intro h
      exact mul_left_cancel₀ (ne_of_gt hγ) h
    · intro h
      rw [h]
  refine ⟨hqt, ?_, ?_⟩
  · rw [hiff, mem_q_max_actions_iff]
    exact ⟨fun h => ⟨ha2, h⟩, fun h => h.2⟩
  · rw [ne_eq, hiff]
    constructor
    · intro h
      exact lt_of_le_of_ne (getD_le_np_max row _ ha2) h
    · intro h
      exact ne_of_lt h

/-- C4 witness: row `[0, 1]`, greedy draw (`ε = 0`, `r = 0`, `k = 0`)
selects the maximizing action 1, and the SARSA target coincides with the
Q-learning target. -/
theorem C4_sarsa_vs_qlearning_target_witness :
    ((0:ℚ) < 1 ∧ (¬ (0:ℚ) < 0 → 0 < (q_max_actions [(0:ℚ), 1]).length)) ∧
    (sarsa_target 1 2 [(0:ℚ), 1] (epsilon_greedy_selection [(0:ℚ), 1] 0 0 0) false =
        qlearning_target 1 2 [(0:ℚ), 1] false ↔
      epsilon_greedy_selection [(0:ℚ), 1] 0 0 0 ∈ q_max_actions [(0:ℚ), 1]) := by
  refine ⟨⟨by norm_num, fun _ => by decide⟩, ?_⟩
  exact (C4_sarsa_vs_qlearning_target 1 0 0 2 0 [(0:ℚ), 1] (by norm_num)
    (fun h => absurd h (by norm_num)) (fun _ => by decide)).2.1

/-! ### DQN agent (C5, C6, C7) -/

/-- One unit of experience `(state, action, reward, new_state, done)` as
appended to the DQN agent's replay memory. -/
structure Transition where
  state : List ℚ
  action : ℕ
  reward : ℚ
  new_state : List ℚ
  done : Bool
deriving DecidableEq

/-- `collections.deque(maxlen=cap).append`: append on the right, evicting
from the left whenever the configured capacity would be exceeded (the
result is always the last `cap` entries, in insertion order). -/
def deque_append {α : Type} (cap : ℕ) (buf : List α) (x : α) : List α :=
  (buf ++ [x]).drop (buf.length + 1 - cap)

/-- The TD target of one sampled transition (`q_target` in
`DQNAgent.train`): `reward + γ · (1 − done) · max_a Q_target(new_state)[a]`,
with the bootstrap value read from the target network. -/
def td_target (γ : ℚ) (q_target : List ℚ → List ℚ) (tr : Transition) : ℚ :=
  tr.reward + γ * (1 - if tr.done then 1 else 0) * np_max (q_target tr.new_state)

/-- The training-target row of one sampled transition
(`q_values[range(len(actions)), actions] = q_target` in `DQNAgent.train`):
the online network's current prediction for the state, with only the
taken-action entry overwritten by the TD target. -/
def dqn_target_row (γ : ℚ) (q_model q_target : List ℚ → List ℚ) (tr : Transition) :
    List ℚ :=
  (q_model tr.state).set tr.action (td_target γ q_target tr)

/-- Summed squared error between a prediction row and a target row
(one row of `err**2` in `DQNAgent.train`). -/
def sq_err_sum (pred tgt : List ℚ) : ℚ :=
  ((tgt.zip pred).map (fun p => (p.1 - p.2) ^ 2)).sum

/-- The DQN loss: `1/batch_size * reduce_sum(err**2)` with
`err = target - predicted` over every action entry of every sampled row. -/
def dqn_loss (γ : ℚ) (q_model q_target : List ℚ → List ℚ)
    (minibatch : List Transition) : ℚ :=
  (1 / (minibatch.length : ℚ)) *
    (minibatch.map
      (fun tr => sq_err_sum (q_model tr.state) (dqn_target_row γ q_model q_target tr))).sum

/-- The DQN agent's mutable learning state: online parameters `model`,
target parameters `target_model` (an opaque parameter type `P`), the replay
`memory`, the sync counter, and the episode statistics. -/
structure DQNState (P : Type) where
  model : P
  target_model : P
  memory : List Transition
  target_update_counter : ℕ
  stats : List ℚ
deriving DecidableEq

/-- `DQNAgent.train`: skip when the memory holds fewer than one batch;
otherwise apply one gradient step to the online parameters only.
`opt_step` stands for "compute the gradients of the loss with respect to
`model.trainable_variables` and let the optimizer apply them". -/
def dqn_train {P : Type} (batch_size : ℕ) (opt_step : P → P) (st : DQNState P) :
    DQNState P :=
  if st.memory.length < batch_size then st
  else { st with model := opt_step st.model }

/-- `self.stats['rewards'][-1] += reward`. -/
def bump_last (l : List ℚ) (x : ℚ) : List ℚ :=
  l.set (l.length - 1) (l.getD (l.length - 1) 0 + x)

/-- Per-step inputs of the DQN training loop: the environment transition
observed this step and the gradient step the optimizer would apply. -/
structure DQNStepInput (P : Type) where
  transition : Transition
  opt_step : P → P

/-- One iteration of the `while True` loop of `DQNAgent.execute`: append
the transition to memory, train the online model, increment the sync
counter and hard-copy the online parameters into the target network when
it reaches `target_update_frequency` (resetting the counter), then update
the episode statistics. -/
def dqn_env_step {P : Type} (cap batch_size freq : ℕ) (inp : DQNStepInput P)
    (st : DQNState P) : DQNState P :=
  let st1 := { st with memory := deque_append cap st.memory inp.transition }
  let st2 := dqn_train batch_size inp.opt_step st1
  let c := st2.target_update_counter + 1
  let st3 :=
    if c = freq then { st2 with target_update_counter := 0, target_model := st2.model }
    else { st2 with target_update_counter := c }
  { st3 with stats := bump_last st3.stats inp.transition.reward }

/-- A run of consecutive DQN environment steps. -/
def dqn_run {P : Type} (cap batch_size freq : ℕ) (inputs : List (DQNStepInput P))
    (st : DQNState P) : DQNState P :=
  inputs.foldl (fun s i => dqn_env_step cap batch_size freq i s) st

theorem getD_set_ne (l : List ℚ) (a j : ℕ) (v : ℚ) (hj : j < l.length)
    (hne : j ≠ a) : (l.set a v).getD j 0 = l.getD j 0 := by
  rw [List.getD_eq_getElem _ _ (by simpa using hj), List.getD_eq_getElem _ _ hj]
  exact List.getElem_set_of_ne (fun h => hne h.symm) v (by simpa using hj)

/-- `dqn_train` touches nothing but the online parameters. -/
theorem dqn_train_frame {P : Type} (bs : ℕ) (opt : P → P) (st : DQNState P) :
    (dqn_train bs opt st).target_model = st.target_model ∧
    (dqn_train bs opt st).memory = st.memory ∧
    (dqn_train bs opt st).stats = st.stats ∧
    (dqn_train bs opt st).target_update_counter = st.target_update_counter := by
  rw [dqn_train]
  split <;> exact ⟨rfl, rfl, rfl, rfl⟩

/-- C5: each sampled row's target is the online prediction with only the
taken-action entry overwritten by
`reward + γ·(1 − done)·max_a Q_target(next_state)[a]` (the bootstrap term
vanishing on terminal transitions), the loss is the squared error between
online predictions and these partially-overwritten targets summed over all
action entries and averaged over the minibatch, and the training step
updates only the online network's parameters (target network, memory and
statistics are untouched; the update is skipped when the memory holds
fewer than one batch). -/
theorem C5_dqn_train_spec {P : Type} (γ : ℚ) (qm qt : List ℚ → List ℚ)
    (minibatch : List Transition) (tr : Transition) (bs : ℕ) (opt : P → P)
    (st : DQNState P) :
    (tr.action < (qm tr.state).length →
      (dqn_target_row γ qm qt tr).getD tr.action 0 = td_target γ qt tr) ∧
    (∀ j, j < (qm tr.state).length → j ≠ tr.action →
      (dqn_target_row γ qm qt tr).getD j 0 = (qm tr.state).getD j 0) ∧
    (tr.done = true → td_target γ qt tr = tr.reward) ∧
    (tr.done = false →
      td_target γ qt tr = tr.reward + γ * np_max (qt tr.new_state)) ∧
    dqn_loss γ qm qt minibatch =
      (minibatch.map
        (fun t => sq_err_sum (qm t.state) (dqn_target_row γ qm qt t))).sum /
        (minibatch.length : ℚ) ∧
    (dqn_train bs opt st).target_model = st.target_model ∧
    (dqn_train bs opt st).memory = st.memory ∧
    (dqn_train bs opt st).stats = st.stats ∧
    (¬ st.memory.length < bs → (dqn_train bs opt st).model = opt st.model) ∧
    (st.memory.length < bs → (dqn_train bs opt st).model = st.model) := by
  refine ⟨?_, ?_, ?_, ?_, ?_, (dqn_train_frame bs opt st).1,
    (dqn_train_frame bs opt st).2.1, (dqn_train_frame bs opt st).2.2.1, ?_, ?_⟩
  · intro ha
    exact getD_set_self (qm tr.state) tr.action _ ha
  · intro j hj hne
    exact getD_set_ne (qm tr.state) tr.action j _ hj hne
  · intro hd
    rw [td_target, hd]
    norm_num
  · intro hd
    rw [td_target, hd]
    norm_num
  · rw [dqn_loss, one_div, inv_mul_eq_div]
  · intro h
    rw [dqn_train, if_neg h]
  · intro h
    rw [dqn_train, if_pos h]

/-- C5 witness: a concrete non-terminal transition with two actions. -/
theorem C5_dqn_train_spec_witness :
    ((Transition.mk [0] 0 1 [0] false).action <
        ((fun _ => [(5:ℚ), 6]) (Transition.mk [0] 0 1 [0] false).state).length ∧
      (Transition.mk [0] 0 1 [0] false).done = false) ∧
    ((dqn_target_row 1 (fun _ => [(5:ℚ), 6]) (fun _ => [(2:ℚ), 3])
        (Transition.mk [0] 0 1 [0] false)).getD
          (Transition.mk [0] 0 1 [0] false).action 0 =
      td_target 1 (fun _ => [(2:ℚ), 3]) (Transition.mk [0] 0 1 [0] false)) ∧
    td_target 1 (fun _ => [(2:ℚ), 3]) (Transition.mk [0] 0 1 [0] false) =
      (Transition.mk [0] 0 1 [0] false).reward +
        1 * np_max ((fun _ => [(2:ℚ), 3]) (Transition.mk [0] 0 1 [0] false).new_state) := by
  refine ⟨⟨by decide, rfl⟩, ?_, ?_⟩
  · exact (C5_dqn_train_spec 1 (fun _ => [(5:ℚ), 6]) (fun _ => [(2:ℚ), 3]) []
      (Transition.mk [0] 0 1 [0] false) 0 id
      (DQNState.mk (0:ℚ) 0 [] 0 [])).1 (by decide)
  · exact (C5_dqn_train_spec 1 (fun _ => [(5:ℚ), 6]) (fun _ => [(2:ℚ), 3]) []
      (Transition.mk [0] 0 1 [0] false) 0 id
      (DQNState.mk (0:ℚ) 0 [] 0 [])).2.2.2.1 rfl

/-- One environment step without a sync: the counter just increments and
the target network is untouched. -/
theorem dqn_env_step_no_sync {P : Type} (cap bs freq : ℕ) (inp : DQNStepInput P)
    (st : DQNState P) (h : st.target_update_counter + 1 ≠ freq) :
    (dqn_env_step cap bs freq inp st).target_model = st.target_model ∧
    (dqn_env_step cap bs freq inp st).target_update_counter =
      st.target_update_counter + 1 := by
  have hf := dqn_train_frame bs inp.opt_step
    { st with memory := deque_append cap st.memory inp.transition }
  rw [dqn_env_step]
  simp only [hf.2.2.2]
  rw [if_neg h]
  exact ⟨hf.1, rfl⟩

/-- One environment step that reaches the sync point: the target network
becomes a hard copy of the (just-trained) online network and the counter
resets. -/
theorem dqn_env_step_sync {P : Type} (cap bs freq : ℕ) (inp : DQNStepInput P)
    (st : DQNState P) (h : st.target_update_counter + 1 = freq) :
    (dqn_env_step cap bs freq inp st).target_model =
      (dqn_env_step cap bs freq inp st).model ∧
    (dqn_env_step cap bs freq inp st).target_update_counter = 0 := by
  have hf := dqn_train_frame bs inp.opt_step
    { st with memory := deque_append cap st.memory inp.transition }
  rw [dqn_env_step]
  simp only [hf.2.2.2]
  rw [if_pos h]
  exact ⟨rfl, rfl⟩

/-- Between syncs: as long as the counter stays below the frequency, the
target network is carried through unchanged and the counter counts steps. -/
theorem dqn_run_no_sync {P : Type} (cap bs freq : ℕ)
    (inputs : List (DQNStepInput P)) :
    ∀ st : DQNState P, st.target_update_counter + inputs.length < freq →
      (dqn_run cap bs freq inputs st).target_model = st.target_model ∧
      (dqn_run cap bs freq inputs st).target_update_counter =
        st.target_update_counter + inputs.length := by
  induction inputs with
  | nil => intro st _; exact ⟨rfl, rfl⟩
  | cons i is ih =>
    intro st hlt
    have hne : st.target_update_counter + 1 ≠ freq := by
      simp only [List.length_cons] at hlt
      omega
    have hstep := dqn_env_step_no_sync cap bs freq i st hne
    have hrec := ih (dqn_env_step cap bs freq i st) (by
      rw [hstep.2]
      simp only [List.length_cons] at hlt
      omega)
    refine ⟨?_, ?_⟩
    · rw [dqn_run, List.foldl_cons, ← dqn_run, hrec.1, hstep.1]
    · rw [dqn_run, List.foldl_cons, ← dqn_run, hrec.2, hstep.2, List.length_cons]
      omega

/-- At the sync point: when the step count since the last reset reaches
the frequency, the final target network equals the final online network
and the counter is back to zero. -/
theorem dqn_run_sync {P : Type} (cap bs freq : ℕ)
    (inputs : List (DQNStepInput P)) :
    ∀ st : DQNState P, st.target_update_counter + inputs.length = freq →
      1 ≤ inputs.length →
      (dqn_run cap bs freq inputs st).target_model =
        (dqn_run cap bs freq inputs st).model ∧
      (dqn_run cap bs freq inputs st).target_update_counter = 0 := by
  induction inputs with
  | nil => intro st _ h1; cases h1
  | cons i is ih =>
    intro st heq _
    rcases is with _ | ⟨j, js⟩
    · have h1 : st.target_update_counter + 1 = freq := by
        simpa using heq
      have := dqn_env_step_sync cap bs freq i st h1
      rw [dqn_run, List.foldl_cons]
      exact this
    · have hne : st.target_update_counter + 1 ≠ freq := by
        simp only [List.length_cons] at heq
        omega
      have hstep := dqn_env_step_no_sync cap bs freq i st hne
      have hrec := ih (dqn_env_step cap bs freq i st) (by
        rw [hstep.2]
        simp only [List.length_cons] at heq ⊢
        omega) (by simp)
      rw [dqn_run, List.foldl_cons, ← dqn_run]
      exact hrec

/-- C6: starting right after a synchronization (counter 0), fewer than
`target_update_frequency` loop steps leave the target network bitwise
unchanged (whatever gradient steps hit the online network); after exactly
`target_update_frequency` steps the target-network parameters equal the
online network's parameters at that instant and the counter resets; and at
any single step the target network either stays unchanged or becomes a
hard copy of the online network — it is never itself the object of a
gradient step. -/
theorem C6_target_network_sync {P : Type} (cap bs freq : ℕ)
    (inputs : List (DQNStepInput P)) (st : DQNState P)
    (hc : st.target_update_counter = 0) :
    (inputs.length < freq →
      (dqn_run cap bs freq inputs st).target_model = st.target_model ∧
      (dqn_run cap bs freq inputs st).target_update_counter = inputs.length) ∧
    (inputs.length = freq → 1 ≤ inputs.length →
      (dqn_run cap bs freq inputs st).target_model =
        (dqn_run cap bs freq inputs st).model ∧
      (dqn_run cap bs freq inputs st).target_update_counter = 0) ∧
    (∀ (i : DQNStepInput P) (s : DQNState P),
      (dqn_env_step cap bs freq i s).target_model = s.target_model ∨
      (dqn_env_step cap bs freq i s).target_model =
        (dqn_env_step cap bs freq i s).model) := by
  refine ⟨?_, ?_, ?_⟩
  · intro hlt
    have := dqn_run_no_sync cap bs freq inputs st (by rw [hc]; simpa using hlt)
    rw [hc] at this
    simpa using this
  · intro heq h1
    exact dqn_run_sync cap bs freq inputs st (by rw [hc]; simpa using heq) h1
  · intro i s
    by_cases h : s.target_update_counter + 1 = freq
    · exact Or.inr (dqn_env_step_sync cap bs freq i s h).1
    · exact Or.inl (dqn_env_step_no_sync cap bs freq i s h).1

/-- C6 witness: two steps with frequency 2 over natural-number parameters;
an online update `+1` every step ends with target equal to online. -/
theorem C6_target_network_sync_witness :
    ((DQNState.mk (0:ℕ) 5 [] 0 []).target_update_counter = 0 ∧
      ([DQNStepInput.mk (Transition.mk [] 0 0 [] false) (fun p => p + 1),
        DQNStepInput.mk (Transition.mk [] 0 0 [] false) (fun p => p + 1)].length = 2 ∧
       1 ≤ [DQNStepInput.mk (Transition.mk [] 0 0 [] false) (fun p => p + 1),
        DQNStepInput.mk (Transition.mk [] 0 0 [] false) (fun p => p + 1)].length)) ∧
    ((dqn_run 10 1 2
        [DQNStepInput.mk (Transition.mk [] 0 0 [] false) (fun p => p + 1),
         DQNStepInput.mk (Transition.mk [] 0 0 [] false) (fun p => p + 1)]
        (DQNState.mk (0:ℕ) 5 [] 0 [])).target_model =
      (dqn_run 10 1 2
        [DQNStepInput.mk (Transition.mk [] 0 0 [] false) (fun p => p + 1),
         DQNStepInput.mk (Transition.mk [] 0 0 [] false) (fun p => p + 1)]
        (DQNState.mk (0:ℕ) 5 [] 0 [])).model ∧
     (dqn_run 10 1 2
        [DQNStepInput.mk (Transition.mk [] 0 0 [] false) (fun p => p + 1),
         DQNStepInput.mk (Transition.mk [] 0 0 [] false) (fun p => p + 1)]
        (DQNState.mk (0:ℕ) 5 [] 0 [])).target_update_counter = 0) := by
  refine ⟨⟨rfl, rfl, by decide⟩, ?_⟩
  exact (C6_target_network_sync 10 1 2
    [DQNStepInput.mk (Transition.mk [] 0 0 [] false) (fun p => p + 1),
     DQNStepInput.mk (Transition.mk [] 0 0 [] false) (fun p => p + 1)]
    (DQNState.mk (0:ℕ) 5 [] 0 []) rfl).2.1 rfl (by decide)

theorem deque_append_length {α : Type} (cap : ℕ) (buf : List α) (x : α) :
    (deque_append cap buf x).length = min (buf.length + 1) cap := by
  rw [deque_append, List.length_drop, List.length_append]
  simp
  omega

/-- Folding `deque_append` over a stream keeps exactly the most recent
`cap` items: the result is the suffix of `buf ++ xs` of length `cap`. -/
theorem deque_foldl_eq {α : Type} (cap : ℕ) (xs : List α) :
    ∀ buf : List α, buf.length ≤ cap →
      xs.foldl (deque_append cap) buf =
        (buf ++ xs).drop (buf.length + xs.length - cap) := by
  induction xs with
  | nil =>
    intro buf hb
    simp only [List.foldl_nil, List.append_nil, List.length_nil, Nat.add_zero]
    rw [Nat.sub_eq_zero_of_le hb, List.drop_zero]
  | cons x xs ih =>
    intro buf hb
    rw [List.foldl_cons]
    have hlen : (deque_append cap buf x).length = min (buf.length + 1) cap :=
      deque_append_length cap buf x
    have hrec := ih (deque_append cap buf x) (by rw [hlen]; omega)
    have hd : buf.length + 1 - cap ≤ (buf ++ [x]).length := by
      rw [List.length_append]
      simp
    rw [hrec, hlen, deque_append, ← List.drop_append_of_le_length hd, List.drop_drop]
    have hassoc : buf ++ [x] ++ xs = buf ++ x :: xs := by simp
    rw [hassoc, List.length_cons]
    congr 1
    omega

/-- C7: starting from an empty replay memory, inserting `cap + k`
transitions leaves exactly `cap` entries — precisely the `cap` most
recently inserted transitions in insertion order — and a single append
never grows a within-capacity buffer beyond the capacity, so the memory's
length never exceeds `cap` at any point of execution (every prefix of the
insertion stream leaves at most `cap` entries). -/
theorem C7_replay_buffer_eviction (cap k : ℕ) (xs : List Transition)
    (hlen : xs.length = cap + k) :
    (xs.foldl (deque_append cap) []).length = cap ∧
    xs.foldl (deque_append cap) [] = xs.drop k ∧
    (∀ (buf : List Transition) (x : Transition),
      buf.length ≤ cap → (deque_append cap buf x).length ≤ cap) ∧
    (∀ m : ℕ, ((xs.take m).foldl (deque_append cap) []).length ≤ cap) := by
  have hfold : xs.foldl (deque_append cap) [] = xs.drop (xs.length - cap) := by
    have := deque_foldl_eq cap xs [] (by simp)
    simpa using this
  refine ⟨?_, ?_, ?_, ?_⟩
  · rw [hfold, List.length_drop, hlen]
    omega
  · rw [hfold, hlen]
    have : cap + k - cap = k := by omega
    rw [this]
  · intro buf x hb
    rw [deque_append_length]
    omega
  · intro m
    have := deque_foldl_eq cap (xs.take m) [] (by simp)
    simp only [List.nil_append, List.length_nil, Nat.zero_add] at this
    rw [this, List.length_drop]
    omega

/-- Three concrete transitions used as witness data. -/
def tr0 : Transition := Transition.mk [] 0 0 [] false

def tr1 : Transition := Transition.mk [] 1 0 [] false

def tr2 : Transition := Transition.mk [] 2 0 [] false

/-- C7 witness: capacity 2, three insertions keep the last two, in order. -/
theorem C7_replay_buffer_eviction_witness :
    (([tr0, tr1, tr2] : List Transition).length = 2 + 1) ∧
    (([tr0, tr1, tr2].foldl (deque_append 2) []).length = 2 ∧
     [tr0, tr1, tr2].foldl (deque_append 2) [] = [tr0, tr1, tr2].drop 1) := by
  refine ⟨rfl, ?_, ?_⟩
  · exact (C7_replay_buffer_eviction 2 1 [tr0, tr1, tr2] rfl).1
  · exact (C7_replay_buffer_eviction 2 1 [tr0, tr1, tr2] rfl).2.1

/-! ### REINFORCE (C8) -/

/-- One pass of the backward loop of `PGAgent.calc_returns`:
`cumulative = rewards[t] + gamma * cumulative; returns[t] = cumulative`,
carried as the pair (returns built so far, current cumulative). -/
def calc_step (γ r : ℚ) (acc : List ℚ × ℚ) : List ℚ × ℚ :=
  let cumulative := r + γ * acc.2
  (cumulative :: acc.1, cumulative)

/-- `PGAgent.calc_returns`: discounted returns computed backward from the
episode's end (`cumulative` starts at 0). -/
def calc_returns (γ : ℚ) (rewards : List ℚ) : List ℚ :=
  (rewards.foldr (calc_step γ) ([], 0)).1

theorem calc_foldr_snd (γ : ℚ) (rewards : List ℚ) :
    (rewards.foldr (calc_step γ) ([], 0)).2 =
      (rewards.foldr (calc_step γ) ([], 0)).1.headD 0 := by
  cases rewards with
  | nil => rfl
  | cons r rest => rfl

theorem calc_returns_nil (γ : ℚ) : calc_returns γ [] = [] := rfl

theorem calc_returns_cons (γ r : ℚ) (rest : List ℚ) :
    calc_returns γ (r :: rest) =
      (r + γ * (calc_returns γ rest).headD 0) :: calc_returns γ rest := by
  simp only [calc_returns, List.foldr_cons, calc_step]
  rw [calc_foldr_snd]

theorem getD_zero_eq_headD (l : List ℚ) : l.getD 0 0 = l.headD 0 := by
  cases l <;> rfl

theorem calc_returns_length (γ : ℚ) (rewards : List ℚ) :
    (calc_returns γ rewards).length = rewards.length := by
  induction rewards with
  | nil => rfl
  | cons r rest ih => rw [calc_returns_cons, List.length_cons, List.length_cons, ih]

theorem calc_returns_getD (γ : ℚ) :
    ∀ (rewards : List ℚ) (t : ℕ), t + 1 < rewards.length →
      (calc_returns γ rewards).getD t 0 =
        rewards.getD t 0 + γ * (calc_returns γ rewards).getD (t + 1) 0 := by
  intro rewards
  induction rewards with
  | nil =>
    intro t ht
    simp at ht
  | cons r rest ih =>
    intro t ht
    rcases t with _ | t2
    · rw [calc_returns_cons]
      simp only [List.getD_cons_zero, List.getD_cons_succ]
      rw [getD_zero_eq_headD]
    · rw [calc_returns_cons]
      simp only [List.getD_cons_succ]
      apply ih
      simpa using ht

theorem calc_returns_last (γ : ℚ) :
    ∀ rewards : List ℚ, rewards ≠ [] →
      (calc_returns γ rewards).getD (rewards.length - 1) 0 =
        rewards.getD (rewards.length - 1) 0 := by
  intro rewards
  induction rewards with
  | nil => intro h; exact absurd rfl h
  | cons r rest ih =>
    intro _
    cases rest with
    | nil =>
      rw [calc_returns_cons]
      simp [calc_returns_nil]
    | cons y ys =>
      rw [calc_returns_cons]
      have h := ih (List.cons_ne_nil y ys)
      simpa [List.length_cons, List.getD_cons_succ] using h

/-- C8: `calc_returns` satisfies the backward recursion — same length as
the reward list, last return equal to the last reward, and
`G_t = reward_t + γ·G_{t+1}` for every earlier step — and on the concrete
input rewards `[1, 1, 1]`, `γ = 1/2` it returns `[7/4, 3/2, 1]`
(that is, `[1.75, 1.5, 1]`). -/
theorem C8_calc_returns_recursion (γ : ℚ) (rewards : List ℚ) :
    (calc_returns γ rewards).length = rewards.length ∧
    (rewards ≠ [] →
      (calc_returns γ rewards).getD (rewards.length - 1) 0 =
        rewards.getD (rewards.length - 1) 0) ∧
    (∀ t, t + 1 < rewards.length →
      (calc_returns γ rewards).getD t 0 =
        rewards.getD t 0 + γ * (calc_returns γ rewards).getD (t + 1) 0) ∧
    calc_returns (1/2) [1, 1, 1] = [7/4, 3/2, 1] := by
  refine ⟨calc_returns_length γ rewards, calc_returns_last γ rewards,
    calc_returns_getD γ rewards, ?_⟩
  norm_num [calc_returns, calc_step]

/-- C8 witness: the recursion at `t = 0` on rewards `[1, 1, 1]`, `γ = 1/2`,
plus the concrete evaluation. -/
theorem C8_calc_returns_recursion_witness :
    (([1, 1, 1] : List ℚ) ≠ [] ∧ 0 + 1 < ([1, 1, 1] : List ℚ).length) ∧
    ((calc_returns (1/2) [1, 1, 1]).getD 0 0 =
        ([1, 1, 1] : List ℚ).getD 0 0 +
          (1/2) * (calc_returns (1/2) [1, 1, 1]).getD 1 0 ∧
      calc_returns (1/2) [1, 1, 1] = [7/4, 3/2, 1]) := by
  refine ⟨⟨by simp, by simp⟩, ?_, ?_⟩
  · exact (C8_calc_returns_recursion (1/2) [1, 1, 1]).2.2.1 0 (by simp)
  · exact (C8_calc_returns_recursion (1/2) [1, 1, 1]).2.2.2

/-! ### One-step Actor-Critic (C9) -/

/-- The actor's loss at one step of `ACAgent.train`:
`actor_loss = - log_prob * delta * self.I`. -/
def actor_loss (log_prob delta I : ℚ) : ℚ := -log_prob * delta * I

/-- The per-step quantities the Actor-Critic loop feeds into the actor
update: the log-probability of the taken action, the TD error `delta`,
and the environment's `done` flag. -/
structure ACStep where
  log_prob : ℚ
  delta : ℚ
  done : Bool

/-- The inner `while True` loop of `ACAgent.execute`, recording at every
step the pair (decay factor `I` used by `train`, actor loss): the loop
trains with the current `I`, breaks on `done`, and otherwise multiplies
`I` by γ (`self.I *= self.gamma`) before the next step. -/
def ac_episode_log (γ : ℚ) : ℚ → List ACStep → List (ℚ × ℚ)
  | _, [] => []
  | I, st :: rest =>
      (I, actor_loss st.log_prob st.delta I) ::
        (if st.done then [] else ac_episode_log γ (I * γ) rest)

/-- One episode of `ACAgent.execute`: the episode starts with
`self.I = 1.`. -/
def ac_episode (γ : ℚ) (steps : List ACStep) : List (ℚ × ℚ) :=
  ac_episode_log γ 1 steps

/-- The episode loop of `ACAgent.execute`: every episode re-enters the
inner loop with `I` reset to 1. -/
def ac_execute (γ : ℚ) (episodes : List (List ACStep)) : List (List (ℚ × ℚ)) :=
  episodes.map (ac_episode γ)

theorem ac_episode_log_getD (γ : ℚ) :
    ∀ (steps : List ACStep) (I : ℚ) (k : ℕ), k < steps.length →
      (∀ j, j < k → (steps.getD j (ACStep.mk 0 0 true)).done = false) →
      (ac_episode_log γ I steps).getD k (0, 0) =
        (I * γ ^ k,
         actor_loss (steps.getD k (ACStep.mk 0 0 true)).log_prob
           (steps.getD k (ACStep.mk 0 0 true)).delta (I * γ ^ k)) := by
  intro steps
  induction steps with
  | nil =>
    intro I k hk _
    simp at hk
  | cons st rest ih =>
    intro I k hk hnd
    rcases k with _ | k2
    · rw [ac_episode_log]
      simp only [List.getD_cons_zero, pow_zero, mul_one]
    · have hd0 : st.done = false := hnd 0 (Nat.succ_pos k2)
      rw [ac_episode_log, hd0]
      simp only [Bool.false_eq_true, if_false, List.getD_cons_succ]
      have hrec := ih (I * γ) k2 (by simpa using hk)
        (fun j hj => hnd (j + 1) (by omega))
      rw [hrec]
      have harith : I * γ * γ ^ k2 = I * γ ^ (k2 + 1) := by ring
      rw [harith]

/-- C9: the Actor-Critic decay factor `I` is 1 at every episode start, is
fed into the actor loss `−log_prob · δ · I` **before** being multiplied,
is multiplied by γ exactly once after each non-terminal step (and never
after the terminal one), and therefore equals `γ^k` at the step following
`k` non-terminal transitions; every episode of the outer loop restarts
from `I = 1`. -/
theorem C9_actor_critic_decay (γ : ℚ) (steps : List ACStep) (k : ℕ)
    (episodes : List (List ACStep)) (e : ℕ) :
    (∀ (I : ℚ) (st : ACStep) (rest : List ACStep), st.done = false →
      ac_episode_log γ I (st :: rest) =
        (I, actor_loss st.log_prob st.delta I) :: ac_episode_log γ (I * γ) rest) ∧
    (∀ (I : ℚ) (st : ACStep) (rest : List ACStep), st.done = true →
      ac_episode_log γ I (st :: rest) = [(I, actor_loss st.log_prob st.delta I)]) ∧
    (k < steps.length →
      (∀ j, j < k → (steps.getD j (ACStep.mk 0 0 true)).done = false) →
      (ac_episode γ steps).getD k (0, 0) =
        (γ ^ k,
         actor_loss (steps.getD k (ACStep.mk 0 0 true)).log_prob
           (steps.getD k (ACStep.mk 0 0 true)).delta (γ ^ k))) ∧
    (ac_execute γ episodes).getD e [] = ac_episode γ (episodes.getD e []) ∧
    (∀ (st : ACStep) (rest : List ACStep),
      (ac_episode γ (st :: rest)).getD 0 (0, 0) =
        (1, actor_loss st.log_prob st.delta 1)) := by
  refine ⟨?_, ?_, ?_, ?_, ?_⟩
  · intro I st rest hd
    rw [ac_episode_log, hd]
    simp
  · intro I st rest hd
    rw [ac_episode_log, hd]
    simp
  · intro hk hnd
    have := ac_episode_log_getD γ steps 1 k hk hnd
    rw [ac_episode, this, one_mul]
  · by_cases he : e < episodes.length
    · rw [ac_execute, List.getD_eq_getElem _ _ (by simpa using he),
        List.getElem_map, List.getD_eq_getElem _ _ he]
    · rw [ac_execute, List.getD_eq_default _ _ (by simpa using not_lt.mp he),
        List.getD_eq_default _ _ (not_lt.mp he)]
      rfl
  · intro st rest
    rw [ac_episode, ac_episode_log]
    simp

/-- C9 witness: γ = 2, a non-terminal step then a terminal one; at step
`k = 1` the decay factor is `2^1`. -/
theorem C9_actor_critic_decay_witness :
    (1 < ([ACStep.mk 3 4 false, ACStep.mk 5 6 true] : List ACStep).length ∧
      (∀ j, j < 1 →
        (([ACStep.mk 3 4 false, ACStep.mk 5 6 true] : List ACStep).getD j
            (ACStep.mk 0 0 true)).done = false)) ∧
    (ac_episode 2 [ACStep.mk 3 4 false, ACStep.mk 5 6 true]).getD 1 (0, 0) =
      ((2:ℚ) ^ 1,
       actor_loss
         (([ACStep.mk 3 4 false, ACStep.mk 5 6 true] : List ACStep).getD 1
             (ACStep.mk 0 0 true)).log_prob
         (([ACStep.mk 3 4 false, ACStep.mk 5 6 true] : List ACStep).getD 1
             (ACStep.mk 0 0 true)).delta ((2:ℚ) ^ 1)) := by
  have hj : ∀ j, j < 1 →
      (([ACStep.mk 3 4 false, ACStep.mk 5 6 true] : List ACStep).getD j
          (ACStep.mk 0 0 true)).done = false := by
    intro j hj1
    have hj0 : j = 0 := by omega
    subst hj0
    rfl
  refine ⟨⟨by simp, hj⟩, ?_⟩
  exact (C9_actor_critic_decay 2 [ACStep.mk 3 4 false, ACStep.mk 5 6 true] 1 [] 0).2.2.1
    (by simp) hj

/-! ### Evaluation rollouts (C10) -/

/-- The learning state of a tabular agent: its Q-table and its episode
statistics. -/
structure TabAgentState where
  q_table : QTable
  stats : List ℚ

/-- `SarsaAgent.act` / `QLearningAgent.act` (identical code): greedy
rollout with `epsilon=0`; the agent state is only read.  The environment
is modelled by the initial observation and a script of `step` responses,
with one pair of random draws per step; the executed actions are returned. -/
def sarsa_act (low high : List ℚ) (ng : List ℕ) (ag : TabAgentState) :
    List ℚ → List (List ℚ × ℚ × Bool) → List (ℚ × ℕ) → TabAgentState × List ℕ
  | _, [], _ => (ag, [])
  | _, _ :: _, [] => (ag, [])
  | s, (s2, _, d) :: sc, (r, k) :: rs =>
      let a := epsilon_greedy_selection
        (ag.q_table (get_discrete_state low high ng s)) 0 r k
      if d then (ag, [a])
      else
        let rest := sarsa_act low high ng ag s2 sc rs
        (rest.1, a :: rest.2)

/-- `DQNAgent.act`: greedy rollout calling `select_action(state, 0)` on the
online model's predictions; the agent state is only read. -/
def dqn_act {P : Type} (predict : P → List ℚ → List ℚ) (st : DQNState P) :
    List ℚ → List (List ℚ × ℚ × Bool) → List (ℚ × ℕ) → DQNState P × List ℕ
  | _, [], _ => (st, [])
  | _, _ :: _, [] => (st, [])
  | s, (s2, _, d) :: sc, (r, k) :: rs =>
      let a := dqn_select_action (predict st.model s) 0 r k
      if d then (st, [a])
      else
        let rest := dqn_act predict st s2 sc rs
        (rest.1, a :: rest.2)

/-- The learning state of the REINFORCE agent: policy parameters, episode
memory and statistics. -/
structure PGState (P : Type) where
  model : P
  memory_states : List (List ℚ)
  memory_actions : List (List ℕ)
  memory_rewards : List ℚ
  stats : List ℚ

/-- `np.random.choice(range(n), 1, p=probabilities)`: inverse-CDF sampling
of an index from a probability vector, given a uniform draw `u`. -/
def categorical_select : List ℚ → ℚ → ℕ
  | [], _ => 0
  | p :: rest, u => if u < p then 0 else 1 + categorical_select rest (u - p)

/-- `PGAgent.act`: rollout sampling from the policy's action
probabilities; the agent state is only read. -/
def pg_act {P : Type} (predict : P → List ℚ → List ℚ) (st : PGState P) :
    List ℚ → List (List ℚ × ℚ × Bool) → List ℚ → PGState P × List ℕ
  | _, [], _ => (st, [])
  | _, _ :: _, [] => (st, [])
  | s, (s2, _, d) :: sc, u :: us =>
      let a := categorical_select (predict st.model s) u
      if d then (st, [a])
      else
        let rest := pg_act predict st s2 sc us
        (rest.1, a :: rest.2)

theorem sarsa_act_frame (low high : List ℚ) (ng : List ℕ) (ag : TabAgentState) :
    ∀ (script : List (List ℚ × ℚ × Bool)) (s0 : List ℚ) (rand : List (ℚ × ℕ)),
      (sarsa_act low high ng ag s0 script rand).1 = ag := by
  intro script
  induction script with
  | nil => intro s0 rand; rfl
  | cons e sc ih =>
    intro s0 rand
    rcases rand with _ | ⟨⟨r, k⟩, rs⟩
    · rfl
    · rcases e with ⟨s2, rw, d⟩
      cases d with
      | true => simp [sarsa_act]
      | false => simp [sarsa_act, ih s2 rs]

theorem dqn_act_frame {P : Type} (predict : P → List ℚ → List ℚ)
    (st : DQNState P) :
    ∀ (script : List (List ℚ × ℚ × Bool)) (s0 : List ℚ) (rand : List (ℚ × ℕ)),
      (dqn_act predict st s0 script rand).1 = st := by
  intro script
  induction script with
  | nil => intro s0 rand; rfl
  | cons e sc ih =>
    intro s0 rand
    rcases rand with _ | ⟨⟨r, k⟩, rs⟩
    · rfl
    · rcases e with ⟨s2, rw, d⟩
      cases d with
      | true => simp [dqn_act]
      | false => simp [dqn_act, ih s2 rs]

theorem pg_act_frame {P : Type} (predict : P → List ℚ → List ℚ)
    (st : PGState P) :
    ∀ (script : List (List ℚ × ℚ × Bool)) (s0 : List ℚ) (us : List ℚ),
      (pg_act predict st s0 script us).1 = st := by
  intro script
  induction script with
  | nil => intro s0 us; simp [pg_act]
  | cons e sc ih =>
    intro s0 us
    rcases us with _ | ⟨u, urest⟩
    · simp [pg_act]
    · rcases e with ⟨s2, rw, d⟩
      cases d with
      | true => simp [pg_act]
      | false => simp [pg_act, ih s2 urest]

/-- C10: the evaluation rollout `act` of every agent returns the learning
state unchanged — Q-table and statistics for the tabular agents, online
and target parameters, replay memory and statistics for the DQN agent,
model, episode memory and statistics for the policy-gradient agent — and
the value-based rollouts select greedily: with `epsilon = 0` and a
nonnegative `np.random.random()` draw, the tabular selector returns a
maximizing action and the DQN selector returns the argmax action. -/
theorem C10_act_is_pure_rollout {P : Type}
    (low high : List ℚ) (ng : List ℕ) (ag : TabAgentState)
    (predict : P → List ℚ → List ℚ) (st : DQNState P) (pst : PGState P)
    (s0 : List ℚ) (script : List (List ℚ × ℚ × Bool)) (rand : List (ℚ × ℕ))
    (us : List ℚ) (q : List ℚ) (r : ℚ) (k : ℕ) :
    (sarsa_act low high ng ag s0 script rand).1 = ag ∧
    (dqn_act predict st s0 script rand).1 = st ∧
    (pg_act predict pst s0 script us).1 = pst ∧
    (0 ≤ r → k < (q_max_actions q).length →
      epsilon_greedy_selection q 0 r k ∈ q_max_actions q) ∧
    (0 ≤ r → dqn_select_action q 0 r k = np_argmax q) := by
  refine ⟨sarsa_act_frame low high ng ag script s0 rand,
    dqn_act_frame predict st script s0 rand,
    pg_act_frame predict pst script s0 us, ?_, ?_⟩
  · intro hr hk
    have hnl : ¬ r < (0:ℚ) := not_lt.mpr hr
    rw [epsilon_greedy_selection, if_neg hnl, List.getD_eq_getElem _ _ hk]
    exact List.getElem_mem _
  · intro hr
    rw [dqn_select_action, if_neg (not_lt.mpr hr)]

/-- C10 witness: one-step scripts over concrete states; `ε = 0` draws. -/
theorem C10_act_is_pure_rollout_witness :
    ((0:ℚ) ≤ 0 ∧ 0 < (q_max_actions [(0:ℚ), 1]).length) ∧
    ((sarsa_act [0] [1] [1] (TabAgentState.mk demo_table [])
        [0] [([0], 0, true)] [(0, 0)]).1 = TabAgentState.mk demo_table [] ∧
     (dqn_act (fun p _ => [p]) (DQNState.mk (7:ℚ) 7 [] 0 [])
        [0] [([0], 0, true)] [(0, 0)]).1 = DQNState.mk (7:ℚ) 7 [] 0 [] ∧
     (pg_act (fun p _ => [p]) (PGState.mk (7:ℚ) [] [] [] [])
        [0] [([0], 0, true)] [0]).1 = PGState.mk (7:ℚ) [] [] [] [] ∧
     epsilon_greedy_selection [(0:ℚ), 1] 0 0 0 ∈ q_max_actions [(0:ℚ), 1] ∧
     dqn_select_action [(0:ℚ), 1] 0 0 0 = np_argmax [(0:ℚ), 1]) := by
  have h := C10_act_is_pure_rollout [0] [1] [1] (TabAgentState.mk demo_table [])
    (fun p _ => [p]) (DQNState.mk (7:ℚ) 7 [] 0 []) (PGState.mk (7:ℚ) [] [] [] [])
    [0] [([0], 0, true)] [(0, 0)] [0] [(0:ℚ), 1] 0 0
  exact ⟨⟨le_refl _, by decide⟩, h.1, h.2.1, h.2.2.1,
    h.2.2.2.1 (le_refl _) (by decide), h.2.2.2.2 (le_refl _)⟩

end RLNotebooks
